import Mathlib

set_option autoImplicit false

/-! Shallow embedding of `lcb_runner/runner/base_runner.py` (LiveCodeBench):
the batch execution engine `BaseRunner` with its result cache and the
operations `run_single`, `run_batch` and `run_main`. Python values and
exceptions are modelled explicitly; external collaborators (the worker
function, the prompt formatter, file I/O) are parameters. -/

/-- Python value that can appear as an element of `run_batch`'s output list or
as a value stored in the cache dict: either a bare string (`str`), or a list
of strings (`list[str]`) as produced by the worker. -/
inductive PyVal where
  | pyStr : String → PyVal
  | pyList : List String → PyVal
deriving DecidableEq

/-- Python `len` on such a value: character count of a string, element count
of a list. -/
def PyVal.pyLen : PyVal → Nat
  | .pyStr s => s.length
  | .pyList l => l.length

/-- Python exceptions the engine can raise. -/
inductive Err where
  | nameError
  | assertionError
  | typeError
  | indexError
  | workerError : String → Err
deriving DecidableEq

/-- In-memory cache `self.cache`: a Python dict from serialized prompt to
stored value, modelled as an association list with unique keys in insertion
order. -/
abbrev Cache := List (String × PyVal)

/-- Python dict lookup `d[k]` (and the membership test `k in d`). -/
def dictFind : Cache → String → Option PyVal
  | [], _ => none
  | (k', v) :: rest, k => if k' = k then some v else dictFind rest k

/-- Python dict assignment `d[k] = v`: overwrite the key in place if present,
otherwise append a new entry. -/
def dictInsert : Cache → String → PyVal → Cache
  | [], k, v => [(k, v)]
  | (k', v') :: rest, k, v =>
    if k' = k then (k, v) :: rest else (k', v') :: dictInsert rest k v

/-- One chat message, a Python `dict[str, str]`, as its ordered key/value
items. -/
abbrev Message := List (String × String)

/-- Task handed to the engine: a plain text prompt (`str`) or a structured
conversation (`list[dict[str, str]]`). -/
inductive Prompt where
  | text : String → Prompt
  | conv : List Message → Prompt
deriving DecidableEq

/-- JSON escaping of quote and backslash characters, as done by the external
`json` library. -/
def jsonEscape (s : String) : String :=
  String.join (s.data.map fun c =>
    if c = '"' then "\\\"" else if c = '\\' then "\\\\" else String.singleton c)

/-- JSON rendering of one string. -/
def jsonStr (s : String) : String := "\"" ++ jsonEscape s ++ "\""

/-- Models Python's `json.dumps` (external `json` library) on a message list:
a JSON array of objects with the default separators. -/
def jsonDumps (msgs : List Message) : String :=
  "[" ++ String.intercalate ", "
    (msgs.map fun m => "\x7b" ++
      String.intercalate ", " (m.map fun kv => jsonStr kv.1 ++ ": " ++ jsonStr kv.2) ++
      "\x7d") ++ "]"

/-- Binding of the local variable `prompt_cache` in `run_single` and in the
cache-write loop of `run_batch`: `json.dumps(prompt)` when the prompt is a
list, nothing otherwise (the variable stays unbound). -/
def promptKey : Prompt → Option String
  | .conv msgs => some (jsonDumps msgs)
  | .text _ => none

/-- Total version of `promptKey`, for stating cache-key facts about prompts
known to be structured. -/
def promptKeyD (p : Prompt) : String := (promptKey p).getD ""

/-- Run scenario discriminator read by `run_main`
(from `lcb_runner.runner.scenario_router`). -/
inductive Scenario where
  | codegeneration
  | selfrepair
deriving DecidableEq

/-- Configuration fields of `args` that `BaseRunner` reads. -/
structure Args where
  n : Nat
  multiprocess : Nat
  use_cache : Bool
  scenario : Scenario
deriving DecidableEq

/-- Caller-supplied worker `self._run_single`: may raise (modelled as `.error`
carrying the exception text) or return a list of candidate outputs. -/
abbrev Worker := Prompt → Except String (List String)

/-- Cache-lookup head of `BaseRunner.run_single`, the block
`if cache is not None and prompt_cache in cache: if len(...) == args.n:
return ...`. The conjunction short-circuits: when `cache is None` nothing is
looked up; otherwise referencing `prompt_cache` while unbound (the prompt was
not a list) raises `NameError`; a present entry whose `len` differs from
`args.n` is passed over. -/
def cacheHit (prompt : Prompt) (cache : Option Cache) (args : Args) :
    Except Err (Option PyVal) :=
  match cache with
  | none => .ok none
  | some c =>
    match promptKey prompt with
    | none => .error .nameError
    | some pc =>
      match dictFind c pc with
      | some v => if v.pyLen = args.n then .ok (some v) else .ok none
      | none => .ok none

/-- Worker call tail of `run_single`: `result = call_method(prompt)` followed
by `assert len(result) == args.n`. -/
def invokeWorker (prompt : Prompt) (args : Args) (call_method : Worker) :
    Except Err PyVal :=
  match call_method prompt with
  | .error msg => .error (.workerError msg)
  | .ok result =>
    if result.length = args.n then .ok (.pyList result) else .error .assertionError

/-- Embeds the static method `BaseRunner.run_single(combined_args)`: return
the cached value on a hit, else call the worker (with the length assertion). -/
def run_single (prompt : Prompt) (cache : Option Cache) (args : Args)
    (call_method : Worker) : Except Err PyVal :=
  match cacheHit prompt cache args with
  | .error e => .error e
  | .ok (some v) => .ok v
  | .ok none => invokeWorker prompt args call_method

/-- Per-task outcome object produced by the parallel pool, as consumed by
`run_batch` through `is_success()`, `result`, `status` and `exception_tb`. -/
inductive Outcome where
  | success : PyVal → Outcome
  | failure : Err → Outcome
deriving DecidableEq

/-- Modelled from the spec: `run_tasks_in_parallel` from
`lcb_runner/utils/multiprocess.py`, which is not present under `src/`. Per the
spec's ParallelBatchExecutor contract it returns one outcome per task,
re-associated with the task's input index so input order is preserved, and it
captures an exception raised by a task as a failure outcome instead of
propagating it. -/
def run_tasks_in_parallel (f : Prompt → Except Err PyVal) (tasks : List Prompt) :
    List Outcome :=
  tasks.map fun t =>
    match f t with
    | .ok r => .success r
    | .error e => .failure e

/-- Collection loop of `run_batch` over `parallel_outputs`: a success appends
its `result`; a failure prints diagnostics and then `extend`s the output list
with `args.n` copies of the empty string. -/
def collectOutcomes (n : Nat) : List Outcome → List PyVal
  | [] => []
  | .success r :: rest => r :: collectOutcomes n rest
  | .failure _ :: rest => List.replicate n (.pyStr "") ++ collectOutcomes n rest

/-- Sequential branch of `run_batch`, the list comprehension
`[self.run_single(argument) for argument in tqdm(arguments)]`: an exception
raised by any call propagates out of the comprehension. -/
def seqOutputs (cache : Option Cache) (args : Args) (worker : Worker) :
    List Prompt → Except Err (List PyVal)
  | [] => .ok []
  | p :: rest =>
    match run_single p cache args worker with
    | .error e => .error e
    | .ok v =>
      match seqOutputs cache args worker rest with
      | .error e => .error e
      | .ok vs => .ok (v :: vs)

/-- Cache-write loop of `run_batch`: `for prompt, output in zip(prompts,
outputs)`, rebinding `prompt_cache` only for list prompts (the binding
persists across iterations) and then executing
`self.cache[prompt_cache] = output` unconditionally; referencing
`prompt_cache` while still unbound raises `NameError`. -/
def cacheWriteLoop : List (Prompt × PyVal) → Option String → Cache → Except Err Cache
  | [], _, c => .ok c
  | (prompt, output) :: rest, pc, c =>
    match (promptKey prompt).orElse (fun _ => pc) with
    | none => .error .nameError
    | some k => cacheWriteLoop rest ((promptKey prompt).orElse (fun _ => pc)) (dictInsert c k output)

/-- Output-collection phase of `run_batch`: the parallel pool when
`args.multiprocess > 1`, the sequential comprehension otherwise. -/
def batchOutputs (args : Args) (cache : Option Cache) (worker : Worker)
    (prompts : List Prompt) : Except Err (List PyVal) :=
  if args.multiprocess > 1 then
    .ok (collectOutcomes args.n
      (run_tasks_in_parallel (fun p => run_single p cache args worker) prompts))
  else
    seqOutputs cache args worker prompts

/-- Epilogue of `run_batch`: when `args.use_cache`, run the cache-write loop
over `zip(prompts, outputs)` (subscripting a `None` cache would raise
`TypeError`; the constructor never produces that combination). -/
def batchEpilogue (args : Args) (cache : Option Cache) (prompts : List Prompt)
    (outputs : List PyVal) : Except Err (List PyVal × Option Cache) :=
  if args.use_cache then
    match cache with
    | some c =>
      match cacheWriteLoop (prompts.zip outputs) none c with
      | .error e => .error e
      | .ok c' => .ok (outputs, some c')
    | none => .error .typeError
  else
    .ok (outputs, cache)

/-- Embeds `BaseRunner.run_batch(prompts)`. The constructor establishes
`self.cache` as a dict exactly when `args.use_cache` (and `None` otherwise),
so the cache is passed here as an `Option Cache`. The returned pair is the
output list and the cache after the write loop. -/
def run_batch (args : Args) (cache : Option Cache) (worker : Worker)
    (prompts : List Prompt) : Except Err (List PyVal × Option Cache) :=
  match batchOutputs args cache worker prompts with
  | .error e => .error e
  | .ok outputs => batchEpilogue args cache prompts outputs

/-- One record of the `..._eval_all.json` metadata that `run_main` reads in
self-repair mode (the file read is modelled by passing the parsed records as
a parameter). -/
structure CheckRecord where
  question_content : String
  code_list : List String
  output_list : List String
  graded_list : List Bool
  metadata : List String
deriving DecidableEq

/-- Body of the inner self-repair loop of `run_main` at index `i`: build the
repair prompt from `question_content`, `code_list[i]`, `graded_list[i]` and
`metadata[i]` (an out-of-range index raises `IndexError`); if the prompt
equals `""` or is not a list — which for a prompt that is either a string or
a list is exactly the string case — append `output_list[i]` verbatim,
otherwise append the worker's result with no length assertion. -/
def repairStep (worker : Worker) (fmt : String → String → Bool → String → Prompt)
    (check : CheckRecord) (i : Nat) : Except Err PyVal :=
  match check.code_list[i]?, check.graded_list[i]?, check.metadata[i]? with
  | some code, some res, some md =>
    match fmt check.question_content code res md with
    | .text _ =>
      match check.output_list[i]? with
      | some o => .ok (.pyStr o)
      | none => .error .indexError
    | .conv msgs =>
      match worker (.conv msgs) with
      | .ok r => .ok (.pyList r)
      | .error e => .error (.workerError e)
  | _, _, _ => .error .indexError

/-- Inner self-repair loop `for i in range(len(checked_base_codes))` over an
explicit index list; an exception propagates. -/
def repairAll (worker : Worker) (fmt : String → String → Bool → String → Prompt)
    (check : CheckRecord) : List Nat → Except Err (List PyVal)
  | [] => .ok []
  | i :: rest =>
    match repairStep worker fmt check i with
    | .error e => .error e
    | .ok v =>
      match repairAll worker fmt check rest with
      | .error e => .error e
      | .ok vs => .ok (v :: vs)

/-- Per-record body of the self-repair branch of `run_main`: one output per
prior code attempt. -/
def run_repair_check (worker : Worker) (fmt : String → String → Bool → String → Prompt)
    (check : CheckRecord) : Except Err (List PyVal) :=
  repairAll worker fmt check (List.range check.code_list.length)

/-- Outer self-repair loop of `run_main` over the metadata records. -/
def repairOuter (worker : Worker) (fmt : String → String → Bool → String → Prompt) :
    List CheckRecord → Except Err (List (List PyVal))
  | [] => .ok []
  | check :: rest =>
    match run_repair_check worker fmt check with
    | .error e => .error e
    | .ok o =>
      match repairOuter worker fmt rest with
      | .error e => .error e
      | .ok os => .ok (o :: os)

/-- Value returned by `run_main`: per-record output lists in self-repair mode,
the flat `run_batch` output list otherwise. -/
inductive MainOut where
  | repair : List (List PyVal) → MainOut
  | batch : List PyVal → MainOut
deriving DecidableEq

/-- Embeds `BaseRunner.run_main(benchmark, format_prompt)`. In self-repair
mode the function loops over the parsed metadata records and returns before
`run_batch` and `save_cache` are ever reached, so the cache is neither read
nor written nor flushed there; otherwise it formats one prompt per benchmark
problem, calls `run_batch` and then `save_cache`. The final `Bool` records
whether `save_cache` wrote the cache file (it writes exactly when
`args.use_cache`). -/
def run_main (args : Args) (cache : Option Cache) (worker : Worker)
    (fmt_repair : String → String → Bool → String → Prompt)
    (format_prompt : String → Prompt) (benchmark : List String)
    (check_metadata : List CheckRecord) :
    Except Err (MainOut × Option Cache × Bool) :=
  if args.scenario = Scenario.selfrepair then
    match repairOuter worker fmt_repair check_metadata with
    | .error e => .error e
    | .ok outs => .ok (.repair outs, cache, false)
  else
    match run_batch args cache worker (benchmark.map format_prompt) with
    | .error e => .error e
    | .ok (outs, cache') => .ok (.batch outs, cache', args.use_cache)


/-! Instrumented variants: the same functions threaded with a count of how
many times the caller-supplied worker `call_method` is invoked, used to state
the spec's worker-invocation-count properties. The lemmas `run_singleC_fst`,
`batchOutputsC_fst` and `run_batchC_fst` prove that the instrumentation does
not change behavior. -/

/-- Instrumented `run_single`: also returns how many times it invoked
`call_method` (0 on a cache hit or a `NameError`, 1 otherwise). -/
def run_singleC (prompt : Prompt) (cache : Option Cache) (args : Args)
    (call_method : Worker) : Except Err PyVal × Nat :=
  match cacheHit prompt cache args with
  | .error e => (.error e, 0)
  | .ok (some v) => (.ok v, 0)
  | .ok none => (invokeWorker prompt args call_method, 1)

/-- Instrumented sequential branch of `run_batch`. -/
def seqOutputsC (cache : Option Cache) (args : Args) (worker : Worker) :
    List Prompt → Except Err (List PyVal) × Nat
  | [] => (.ok [], 0)
  | p :: rest =>
    match run_singleC p cache args worker with
    | (.error e, k) => (.error e, k)
    | (.ok v, k) =>
      match seqOutputsC cache args worker rest with
      | (.error e, k') => (.error e, k + k')
      | (.ok vs, k') => (.ok (v :: vs), k + k')

/-- Instrumented output-collection phase: in the parallel branch every task
runs (the pool isolates failures), so the count is the sum of the per-task
counts. -/
def batchOutputsC (args : Args) (cache : Option Cache) (worker : Worker)
    (prompts : List Prompt) : Except Err (List PyVal) × Nat :=
  if args.multiprocess > 1 then
    (.ok (collectOutcomes args.n
        (run_tasks_in_parallel (fun p => run_single p cache args worker) prompts)),
      (prompts.map fun p => (run_singleC p cache args worker).2).sum)
  else
    seqOutputsC cache args worker prompts

/-- Instrumented `run_batch`. -/
def run_batchC (args : Args) (cache : Option Cache) (worker : Worker)
    (prompts : List Prompt) : Except Err (List PyVal × Option Cache) × Nat :=
  match batchOutputsC args cache worker prompts with
  | (.error e, k) => (.error e, k)
  | (.ok outputs, k) => (batchEpilogue args cache prompts outputs, k)

/-- Instrumentation of `run_single` is faithful. -/
theorem run_singleC_fst (prompt : Prompt) (cache : Option Cache) (args : Args)
    (worker : Worker) :
    (run_singleC prompt cache args worker).1 = run_single prompt cache args worker := by
  unfold run_singleC run_single
  cases cacheHit prompt cache args with
  | ok ov => cases ov <;> rfl
  | error e => rfl

/-- Instrumentation of the sequential branch is faithful. -/
theorem seqOutputsC_fst (cache : Option Cache) (args : Args) (worker : Worker)
    (prompts : List Prompt) :
    (seqOutputsC cache args worker prompts).1 = seqOutputs cache args worker prompts := by
  induction prompts with
  | nil => rfl
  | cons p rest ih =>
    have h1 := run_singleC_fst p cache args worker
    simp only [seqOutputsC, seqOutputs, ← h1, ← ih]
    rcases run_singleC p cache args worker with ⟨e | v, k⟩
    · rfl
    · rcases seqOutputsC cache args worker rest with ⟨e' | vs, k'⟩ <;> rfl

/-- Instrumentation of the output-collection phase is faithful. -/
theorem batchOutputsC_fst (args : Args) (cache : Option Cache) (worker : Worker)
    (prompts : List Prompt) :
    (batchOutputsC args cache worker prompts).1 = batchOutputs args cache worker prompts := by
  unfold batchOutputsC batchOutputs
  by_cases hmp : args.multiprocess > 1
  · simp [hmp]
  · simp [hmp, seqOutputsC_fst]

/-- Instrumentation of `run_batch` is faithful. -/
theorem run_batchC_fst (args : Args) (cache : Option Cache) (worker : Worker)
    (prompts : List Prompt) :
    (run_batchC args cache worker prompts).1 = run_batch args cache worker prompts := by
  unfold run_batchC run_batch
  have h := batchOutputsC_fst args cache worker prompts
  rcases hb : batchOutputsC args cache worker prompts with ⟨r, k⟩
  rw [hb] at h
  rw [← h]
  cases r <;> rfl

/-! Concrete fixtures used by counterexamples and witnesses. -/

/-- A one-message structured prompt with the given content. -/
def mkPrompt (s : String) : Prompt := .conv [[("role", "user"), ("content", s)]]

def promptA : Prompt := mkPrompt "A"

def promptB : Prompt := mkPrompt "B"

/-- Fingerprint (serialized form) of `promptA`. -/
def fpA : String := jsonDumps [[("role", "user"), ("content", "A")]]

/-- Fingerprint (serialized form) of `promptB`. -/
def fpB : String := jsonDumps [[("role", "user"), ("content", "B")]]

/-- Worker that raises on every prompt. -/
def failingWorker : Worker := fun _ => .error "boom"

/-- Worker that returns the two samples `x1`, `x2` for any input. -/
def goodWorker : Worker := fun _ => .ok ["x1", "x2"]

/-- Worker that succeeds on `promptB` and raises on everything else. -/
def mixedWorker : Worker := fun p => if p = promptB then .ok ["y1", "y2"] else .error "boom"

def argsPar : Args :=
  { n := 2, multiprocess := 2, use_cache := false, scenario := .codegeneration }

def argsParCache : Args :=
  { n := 2, multiprocess := 2, use_cache := true, scenario := .codegeneration }

def argsSeqCache : Args :=
  { n := 2, multiprocess := 1, use_cache := true, scenario := .codegeneration }

def argsSeq : Args :=
  { n := 2, multiprocess := 1, use_cache := false, scenario := .codegeneration }

/-- Cache contents after running `[promptA, promptB, promptA]` against
`goodWorker` with `n = 2`. -/
def cacheAB : Cache := [(fpA, .pyList ["x1", "x2"]), (fpB, .pyList ["x1", "x2"])]

/-- C1: contrary to the claim, `run_batch` does not return one result per
input task when a worker invocation fails: the failure branch `extend`s the
output list with `args.n` separate empty strings, so a parallel batch of one
failing task (n = 2) returns a two-element output list. -/
theorem run_batch_failure_not_one_result_per_task :
    run_batch argsPar none failingWorker [promptA] =
      .ok ([.pyStr "", .pyStr ""], none) ∧
    ([PyVal.pyStr "", PyVal.pyStr ""].length ≠ [promptA].length) :=
  ⟨rfl, by decide⟩

/-- C2: contrary to the claim, the value placed where a failed task's result
should go is not a single sequence of `n` empty strings: it is a bare empty
string (Python length 0, not `n = 2`), followed by a second bare empty
string. -/
theorem run_batch_failure_placeholder_flattened :
    run_batch argsPar none failingWorker [promptB] =
      .ok ([.pyStr "", .pyStr ""], none) ∧
    (PyVal.pyStr "").pyLen ≠ argsPar.n :=
  ⟨rfl, by decide⟩

/-- C3 counterexample: the worker fails for the batch's only task, `run_batch`
completes (parallel path, caching enabled), and afterwards the cache does hold
an entry under that task's fingerprint — the first flattened placeholder
string — because the write loop stores every zipped output unconditionally. -/
theorem cache_holds_entry_for_failed_task :
    run_batch argsParCache (some []) failingWorker [promptA] =
      .ok ([.pyStr "", .pyStr ""], some [(fpA, .pyStr "")]) ∧
    dictFind [(fpA, PyVal.pyStr "")] fpA = some (.pyStr "") :=
  ⟨rfl, by decide⟩

/-- C4 counterexample: with structured tasks `[A, B, A]`, an empty cache,
caching enabled and a worker answering `[x1, x2]`, the first run performs 3
worker invocations, not 2: results enter the cache only after the whole batch,
so the duplicate `A` is not deduplicated within the batch. -/
theorem first_run_is_three_invocations_not_two :
    (run_batchC argsSeqCache (some []) goodWorker [promptA, promptB, promptA]).2 ≠ 2 := by
  decide

/-- C4 amended: same scenario with structured tasks: the first run makes
exactly 3 worker invocations (one per task, the duplicate included), returns
`[[x1, x2], [x1, x2], [x1, x2]]` and leaves exactly 2 cache entries; a second
run over the same tasks with that cache makes 0 invocations and returns the
identical output with the cache unchanged. -/
theorem cache_scenario_three_then_zero_invocations :
    run_batchC argsSeqCache (some []) goodWorker [promptA, promptB, promptA] =
      (.ok ([.pyList ["x1", "x2"], .pyList ["x1", "x2"], .pyList ["x1", "x2"]],
        some cacheAB), 3) ∧
    cacheAB.length = 2 ∧
    run_batchC argsSeqCache (some cacheAB) goodWorker [promptA, promptB, promptA] =
      (.ok ([.pyList ["x1", "x2"], .pyList ["x1", "x2"], .pyList ["x1", "x2"]],
        some cacheAB), 0) :=
  ⟨rfl, rfl, rfl⟩

/-- C7 counterexample: at parallelism 1 the claim fails — the sequential
branch is a bare list comprehension, so the first task's exception propagates
out of `run_batch` and the second task is never reported. -/
theorem sequential_worker_exception_propagates :
    run_batch argsSeq none failingWorker [promptA, promptB] =
      .error (.workerError "boom") :=
  rfl

/-- Looking a key up after a dict assignment: the assigned key returns the new
value, other keys are unaffected. -/
theorem dictFind_dictInsert (c : Cache) (k0 k : String) (v0 : PyVal) :
    dictFind (dictInsert c k0 v0) k = if k0 = k then some v0 else dictFind c k := by
  induction c with
  | nil => simp [dictInsert, dictFind]
  | cons hd rest ih =>
    obtain ⟨k1, v1⟩ := hd
    by_cases h1 : k1 = k0
    · subst h1
      by_cases h2 : k1 = k <;> simp [dictInsert, dictFind, h2]
    · by_cases h2 : k1 = k
      · subst h2
        have h3 : ¬ k0 = k1 := fun he => h1 he.symm
        simp [dictInsert, dictFind, h1, h3]
      · simp [dictInsert, dictFind, h1, h2, ih]

/-- The worker-call tail never raises `NameError`: its only failure modes are
the worker's own exception and the length assertion. -/
theorem invokeWorker_ne_nameError (prompt : Prompt) (args : Args) (worker : Worker) :
    invokeWorker prompt args worker ≠ .error .nameError := by
  unfold invokeWorker
  cases hw : worker prompt with
  | error msg => simp
  | ok result => by_cases hl : result.length = args.n <;> simp [hl]

/-- A cache hit only ever produces a value whose Python length is `args.n`. -/
theorem cacheHit_some_length (prompt : Prompt) (cache : Option Cache) (args : Args)
    (v : PyVal) (h : cacheHit prompt cache args = .ok (some v)) : v.pyLen = args.n := by
  cases cache with
  | none => simp [cacheHit] at h
  | some c =>
    cases hk : promptKey prompt with
    | none => simp [cacheHit, hk] at h
    | some pc =>
      cases hf : dictFind c pc with
      | none => simp [cacheHit, hk, hf] at h
      | some w =>
        by_cases hl : w.pyLen = args.n
        · simp [cacheHit, hk, hf, hl] at h
          subst h
          exact hl
        · simp [cacheHit, hk, hf, hl] at h

/-- C5: whenever `run_single` returns normally, the returned value has Python
length exactly `args.n`: a cached value is returned only after its length is
checked against `args.n`, and a worker result of any other length makes the
call fail through the assertion instead of returning. -/
theorem run_single_ok_length (prompt : Prompt) (cache : Option Cache) (args : Args)
    (worker : Worker) (v : PyVal) (h : run_single prompt cache args worker = .ok v) :
    v.pyLen = args.n := by
  cases hc : cacheHit prompt cache args with
  | error e => simp [run_single, hc] at h
  | ok ov =>
    cases ov with
    | some w =>
      simp [run_single, hc] at h
      subst h
      exact cacheHit_some_length prompt cache args _ hc
    | none =>
      simp only [run_single, hc] at h
      cases hw : worker prompt with
      | error msg => simp [invokeWorker, hw] at h
      | ok result =>
        by_cases hl : result.length = args.n
        · simp [invokeWorker, hw, hl] at h
          subst h
          simpa [PyVal.pyLen] using hl
        · simp [invokeWorker, hw, hl] at h

/-- C5 witness. -/
theorem run_single_ok_length_w :
    run_single promptA none argsSeq goodWorker = .ok (.pyList ["x1", "x2"]) ∧
    (PyVal.pyList ["x1", "x2"]).pyLen = argsSeq.n :=
  ⟨rfl, run_single_ok_length promptA none argsSeq goodWorker _ rfl⟩

/-- C6: for a structured prompt with caching on, the lookup in `run_single`
returns the stored value exactly when it is present with Python length
`args.n` (for any worker, which is therefore not invoked); a present entry of
any other length is treated as a miss and `run_single` proceeds to the worker
call (the `invokeWorker` tail). -/
theorem run_single_lookup_requires_exact_length
    (c : Cache) (args : Args) (worker : Worker) (msgs : List Message) (v : PyVal)
    (hfind : dictFind c (jsonDumps msgs) = some v) :
    (v.pyLen = args.n → run_single (.conv msgs) (some c) args worker = .ok v) ∧
    (v.pyLen ≠ args.n → run_single (.conv msgs) (some c) args worker =
      invokeWorker (.conv msgs) args worker) := by
  constructor <;> intro hl <;> simp [run_single, cacheHit, promptKey, hfind, hl]

/-- Cache with a stored entry of the wrong length (1 instead of 2). -/
def cacheShort : Cache := [(fpA, .pyList ["z"])]

/-- C6 witness: a full-length entry is served even with a failing worker; a
short entry falls through to the worker call. -/
theorem run_single_lookup_requires_exact_length_w :
    dictFind cacheAB fpA = some (.pyList ["x1", "x2"]) ∧
    run_single promptA (some cacheAB) argsSeqCache failingWorker = .ok (.pyList ["x1", "x2"]) ∧
    dictFind cacheShort fpA = some (.pyList ["z"]) ∧
    run_single promptA (some cacheShort) argsSeqCache goodWorker =
      invokeWorker promptA argsSeqCache goodWorker :=
  ⟨rfl,
   (run_single_lookup_requires_exact_length cacheAB argsSeqCache failingWorker
     [[("role", "user"), ("content", "A")]] _ rfl).1 (by decide),
   rfl,
   (run_single_lookup_requires_exact_length cacheShort argsSeqCache goodWorker
     [[("role", "user"), ("content", "A")]] _ rfl).2 (by decide)⟩

/-- C9: `prompt_cache` is bound only for structured prompts, so (a) for a
structured prompt the `NameError` branch is unreachable with any cache state,
(b) with the cache disabled (`None`) even a plain-text prompt proceeds
directly to the worker call, and (c) for every plain-text prompt with caching
enabled `run_single` raises `NameError` — for every worker, i.e. before the
worker is invoked. -/
theorem prompt_cache_unbound_semantics (args : Args) (worker : Worker) :
    (∀ (msgs : List Message) (cache : Option Cache),
      run_single (.conv msgs) cache args worker ≠ .error .nameError) ∧
    (∀ s : String, run_single (.text s) none args worker =
      invokeWorker (.text s) args worker) ∧
    (∀ (s : String) (c : Cache),
      run_single (.text s) (some c) args worker = .error .nameError) := by
  refine ⟨?_, ?_, ?_⟩
  · intro msgs cache
    cases cache with
    | none =>
      simpa [run_single, cacheHit] using invokeWorker_ne_nameError (.conv msgs) args worker
    | some c =>
      cases hf : dictFind c (jsonDumps msgs) with
      | none =>
        simpa [run_single, cacheHit, promptKey, hf] using
          invokeWorker_ne_nameError (.conv msgs) args worker
      | some v =>
        by_cases hl : v.pyLen = args.n
        · simp [run_single, cacheHit, promptKey, hf, hl]
        · simpa [run_single, cacheHit, promptKey, hf, hl] using
            invokeWorker_ne_nameError (.conv msgs) args worker
  · intro s
    simp [run_single, cacheHit]
  · intro s c
    simp [run_single, cacheHit, promptKey]

/-- C9 witness: a plain-text prompt with caching on raises `NameError`; a
structured prompt never does. -/
theorem prompt_cache_unbound_semantics_w :
    run_single (.text "hi") (some []) argsSeq goodWorker = .error .nameError ∧
    run_single promptA none argsSeq goodWorker ≠ .error .nameError :=
  ⟨(prompt_cache_unbound_semantics argsSeq goodWorker).2.2 "hi" [],
   (prompt_cache_unbound_semantics argsSeq goodWorker).1
     [[("role", "user"), ("content", "A")]] none⟩

/-- Elementwise description of a successful inner self-repair loop run. -/
theorem repairAll_ok (worker : Worker) (fmt : String → String → Bool → String → Prompt)
    (check : CheckRecord) :
    ∀ (l : List Nat) (out : List PyVal), repairAll worker fmt check l = .ok out →
      out.length = l.length ∧
      ∀ (k i : Nat), l[k]? = some i →
        ∃ v, out[k]? = some v ∧ repairStep worker fmt check i = .ok v := by
  intro l
  induction l with
  | nil =>
    intro out h
    simp [repairAll] at h
    subst h
    simp
  | cons i rest ih =>
    intro out h
    cases hs : repairStep worker fmt check i with
    | error e => simp [repairAll, hs] at h
    | ok v =>
      cases hr : repairAll worker fmt check rest with
      | error e => simp [repairAll, hs, hr] at h
      | ok vs =>
        simp [repairAll, hs, hr] at h
        subst h
        obtain ⟨hlen, htail⟩ := ih vs hr
        refine ⟨by simp [hlen], ?_⟩
        intro k j hk
        cases k with
        | zero =>
          simp at hk
          subst hk
          exact ⟨v, by simp, hs⟩
        | succ k0 =>
          simp at hk
          obtain ⟨w, hw1, hw2⟩ := htail k0 j hk
          exact ⟨w, by simpa using hw1, hw2⟩

/-- Elementwise description of a successful outer self-repair loop run. -/
theorem repairOuter_ok (worker : Worker) (fmt : String → String → Bool → String → Prompt) :
    ∀ (checks : List CheckRecord) (outs : List (List PyVal)),
      repairOuter worker fmt checks = .ok outs →
      outs.length = checks.length ∧
      ∀ (j : Nat) (ck : CheckRecord), checks[j]? = some ck →
        ∃ o, outs[j]? = some o ∧ run_repair_check worker fmt ck = .ok o := by
  intro checks
  induction checks with
  | nil =>
    intro outs h
    simp [repairOuter] at h
    subst h
    simp
  | cons ck rest ih =>
    intro outs h
    cases hs : run_repair_check worker fmt ck with
    | error e => simp [repairOuter, hs] at h
    | ok o =>
      cases hr : repairOuter worker fmt rest with
      | error e => simp [repairOuter, hs, hr] at h
      | ok os =>
        simp [repairOuter, hs, hr] at h
        subst h
        obtain ⟨hlen, htail⟩ := ih os hr
        refine ⟨by simp [hlen], ?_⟩
        intro j ck' hj
        cases j with
        | zero =>
          simp at hj
          subst hj
          exact ⟨o, by simp, hs⟩
        | succ j0 =>
          simp at hj
          obtain ⟨o', ho1, ho2⟩ := htail j0 ck' hj
          exact ⟨o', by simpa using ho1, ho2⟩

/-- What a successful self-repair step means: the index was in range of the
three indexed lists, and the appended value is the stored prior output
exactly when the constructed repair prompt is the string case, or the
worker's result when the prompt is structured. -/
theorem repairStep_ok (worker : Worker) (fmt : String → String → Bool → String → Prompt)
    (check : CheckRecord) (i : Nat) (v : PyVal)
    (h : repairStep worker fmt check i = .ok v) :
    ∃ code res md, check.code_list[i]? = some code ∧
      check.graded_list[i]? = some res ∧ check.metadata[i]? = some md ∧
      ((∃ s, fmt check.question_content code res md = .text s ∧
        ∃ o, check.output_list[i]? = some o ∧ v = .pyStr o) ∨
       (∃ msgs, fmt check.question_content code res md = .conv msgs ∧
        ∃ r, worker (.conv msgs) = .ok r ∧ v = .pyList r)) := by
  cases h1 : check.code_list[i]? with
  | none => simp [repairStep, h1] at h
  | some code =>
    cases h2 : check.graded_list[i]? with
    | none => simp [repairStep, h1, h2] at h
    | some res =>
      cases h3 : check.metadata[i]? with
      | none => simp [repairStep, h1, h2, h3] at h
      | some md =>
        refine ⟨code, res, md, rfl, rfl, rfl, ?_⟩
        cases hf : fmt check.question_content code res md with
        | text s =>
          cases ho : check.output_list[i]? with
          | none => simp [repairStep, h1, h2, h3, hf, ho] at h
          | some o =>
            simp [repairStep, h1, h2, h3, hf, ho] at h
            exact Or.inl ⟨s, rfl, o, rfl, h.symm⟩
        | conv msgs =>
          cases hwk : worker (.conv msgs) with
          | error e => simp [repairStep, h1, h2, h3, hf, hwk] at h
          | ok r =>
            simp [repairStep, h1, h2, h3, hf, hwk] at h
            exact Or.inr ⟨msgs, rfl, r, hwk, h.symm⟩

/-- C8: in self-repair mode `run_main` leaves the cache untouched and
unflushed, returns one output list per metadata record, each aligned 1:1
with that record's prior attempts, and each element is the stored prior
output verbatim exactly when the constructed repair prompt is the empty
string or not a list (the string case of `Prompt`), and the worker's result
on the repair prompt otherwise. -/
theorem selfrepair_mode_contract
    (args : Args) (cache : Option Cache) (worker : Worker)
    (fmt : String → String → Bool → String → Prompt) (format_prompt : String → Prompt)
    (benchmark : List String) (checks : List CheckRecord)
    (r : MainOut × Option Cache × Bool)
    (hs : args.scenario = Scenario.selfrepair)
    (h : run_main args cache worker fmt format_prompt benchmark checks = .ok r) :
    r.2.1 = cache ∧ r.2.2 = false ∧
    ∃ outs, r.1 = MainOut.repair outs ∧ outs.length = checks.length ∧
      ∀ (j : Nat) (ck : CheckRecord), checks[j]? = some ck →
        ∃ o, outs[j]? = some o ∧ o.length = ck.code_list.length ∧
          ∀ i : Nat, i < ck.code_list.length →
            ∃ v, o[i]? = some v ∧
            ∃ code res md, ck.code_list[i]? = some code ∧
              ck.graded_list[i]? = some res ∧ ck.metadata[i]? = some md ∧
              ((∃ s, fmt ck.question_content code res md = .text s ∧
                 ∃ po, ck.output_list[i]? = some po ∧ v = .pyStr po) ∨
               (∃ msgs, fmt ck.question_content code res md = .conv msgs ∧
                 ∃ rr, worker (.conv msgs) = .ok rr ∧ v = .pyList rr)) := by
  cases hro : repairOuter worker fmt checks with
  | error e => simp [run_main, hs, hro] at h
  | ok outs =>
    simp [run_main, hs, hro] at h
    subst h
    refine ⟨rfl, rfl, outs, rfl, ?_, ?_⟩
    · exact (repairOuter_ok worker fmt checks outs hro).1
    · intro j ck hck
      obtain ⟨o, ho1, ho2⟩ := (repairOuter_ok worker fmt checks outs hro).2 j ck hck
      obtain ⟨holen, hk⟩ :=
        repairAll_ok worker fmt ck (List.range ck.code_list.length) o ho2
      refine ⟨o, ho1, by simpa using holen, ?_⟩
      intro i hi
      have hri : (List.range ck.code_list.length)[i]? = some i := by
        simp [hi]
      obtain ⟨v, hv1, hv2⟩ := hk i i hri
      exact ⟨v, hv1, repairStep_ok worker fmt ck i v hv2⟩

/-- One metadata record used in the C8 witness: two prior attempts, the first
graded true (repair prompt empty, prior output reused), the second graded
false (worker re-invoked). -/
def ckW : CheckRecord :=
  { question_content := "Q", code_list := ["c1", "c2"], output_list := ["o1", "o2"],
    graded_list := [true, false], metadata := ["m1", "m2"] }

/-- Repair-prompt formatter used in the C8 witness: no repair needed for a
passing attempt (empty string prompt), a one-message conversation otherwise. -/
def fmtW : String → String → Bool → String → Prompt :=
  fun _ code res _ => if res then .text "" else .conv [[("repair", code)]]

def argsRepair : Args :=
  { n := 2, multiprocess := 1, use_cache := false, scenario := .selfrepair }

/-- Result of `run_main` in the C8 witness. -/
def rW : MainOut × Option Cache × Bool :=
  (.repair [[.pyStr "o1", .pyList ["x1", "x2"]]], none, false)

/-- C8 witness. -/
theorem selfrepair_mode_contract_w :
    rW.2.1 = (none : Option Cache) ∧ rW.2.2 = false ∧
    ∃ outs, rW.1 = MainOut.repair outs ∧ outs.length = [ckW].length ∧
      ∀ (j : Nat) (ck : CheckRecord), [ckW][j]? = some ck →
        ∃ o, outs[j]? = some o ∧ o.length = ck.code_list.length ∧
          ∀ i : Nat, i < ck.code_list.length →
            ∃ v, o[i]? = some v ∧
            ∃ code res md, ck.code_list[i]? = some code ∧
              ck.graded_list[i]? = some res ∧ ck.metadata[i]? = some md ∧
              ((∃ s, fmtW ck.question_content code res md = .text s ∧
                 ∃ po, ck.output_list[i]? = some po ∧ v = .pyStr po) ∨
               (∃ msgs, fmtW ck.question_content code res md = .conv msgs ∧
                 ∃ rr, goodWorker (.conv msgs) = .ok rr ∧ v = .pyList rr)) :=
  selfrepair_mode_contract argsRepair none goodWorker fmtW Prompt.text [] [ckW] rW rfl rfl

/-- Zipping a list with its own map pairs each element with its image. -/
theorem zip_map_self {α β : Type} (f : α → β) (l : List α) :
    l.zip (l.map f) = l.map fun a => (a, f a) := by
  induction l with
  | nil => rfl
  | cons a rest ih => simp [ih]

/-- The cache-write loop as a plain fold, for reasoning about batches whose
prompts are all structured (where the stale-binding case cannot occur). -/
def writeFold (pairs : List (Prompt × PyVal)) (c : Cache) : Cache :=
  pairs.foldl (fun acc pr => dictInsert acc (promptKeyD pr.1) pr.2) c

/-- With all-structured prompts the write loop never raises and equals the
fold of dict assignments. -/
theorem cacheWriteLoop_conv :
    ∀ (pairs : List (Prompt × PyVal)) (pc : Option String) (c : Cache),
      (∀ pr ∈ pairs, ∃ msgs, pr.1 = Prompt.conv msgs) →
      cacheWriteLoop pairs pc c = .ok (writeFold pairs c) := by
  intro pairs
  induction pairs with
  | nil => intro pc c _; rfl
  | cons pr rest ih =>
    intro pc c h
    obtain ⟨p, out⟩ := pr
    obtain ⟨msgs, hm⟩ := h (p, out) (List.mem_cons_self _ rest)
    simp only [] at hm
    subst hm
    exact ih (some (jsonDumps msgs)) (dictInsert c (jsonDumps msgs) out)
      (fun q hq => h q (List.mem_cons_of_mem _ hq))

/-- A key whose every write in the loop carries the same value keeps that
value. -/
theorem writeFold_preserves (k : String) (v : PyVal) :
    ∀ (pairs : List (Prompt × PyVal)) (c : Cache),
      dictFind c k = some v →
      (∀ pr ∈ pairs, promptKeyD pr.1 = k → pr.2 = v) →
      dictFind (writeFold pairs c) k = some v := by
  intro pairs
  induction pairs with
  | nil => intro c hc _; simpa [writeFold] using hc
  | cons pr rest ih =>
    intro c hc hall
    have hstep : dictFind (dictInsert c (promptKeyD pr.1) pr.2) k = some v := by
      rw [dictFind_dictInsert]
      by_cases hk : promptKeyD pr.1 = k
      · simp [hk, hall pr (List.mem_cons_self pr rest) hk]
      · simp [hk, hc]
    have hres := ih (dictInsert c (promptKeyD pr.1) pr.2) hstep
      (fun q hq hqk => hall q (List.mem_cons_of_mem _ hq) hqk)
    simpa [writeFold] using hres

/-- If some pair of the loop writes key `k` and every pair writing `k` writes
the value `v`, the final dict maps `k` to `v`. -/
theorem writeFold_find (k : String) (v : PyVal) :
    ∀ (pairs : List (Prompt × PyVal)) (c : Cache),
      (∃ pr ∈ pairs, promptKeyD pr.1 = k) →
      (∀ pr ∈ pairs, promptKeyD pr.1 = k → pr.2 = v) →
      dictFind (writeFold pairs c) k = some v := by
  intro pairs
  induction pairs with
  | nil => intro c hex _; simp at hex
  | cons pr rest ih =>
    intro c hex hall
    by_cases hk : promptKeyD pr.1 = k
    · have hv : pr.2 = v := hall pr (List.mem_cons_self pr rest) hk
      have hfind : dictFind (dictInsert c (promptKeyD pr.1) pr.2) k = some v := by
        rw [dictFind_dictInsert]
        simp [hk, hv]
      have hres := writeFold_preserves k v rest (dictInsert c (promptKeyD pr.1) pr.2) hfind
        (fun q hq hqk => hall q (List.mem_cons_of_mem _ hq) hqk)
      simpa [writeFold] using hres
    · obtain ⟨q, hq, hqk⟩ := hex
      rcases List.mem_cons.mp hq with rfl | hq2
      · exact absurd hqk hk
      · have hres := ih (dictInsert c (promptKeyD pr.1) pr.2) ⟨q, hq2, hqk⟩
          (fun q2 hq3 hqk2 => hall q2 (List.mem_cons_of_mem _ hq3) hqk2)
        simpa [writeFold] using hres

/-- The value inside a successful run (with a default for the error branch,
used only in all-success contexts). -/
def okValD (e : Except Err PyVal) : PyVal :=
  match e with
  | .ok v => v
  | .error _ => .pyList []

/-- When every task in the batch succeeds, the sequential branch returns the
per-prompt run values in input order. -/
theorem seqOutputs_all_ok (cache : Option Cache) (args : Args) (worker : Worker) :
    ∀ prompts : List Prompt,
      (∀ p ∈ prompts, ∃ v, run_single p cache args worker = .ok v) →
      seqOutputs cache args worker prompts =
        .ok (prompts.map fun p => okValD (run_single p cache args worker)) := by
  intro prompts
  induction prompts with
  | nil => intro _; rfl
  | cons p rest ih =>
    intro h
    obtain ⟨v, hv⟩ := h p (List.mem_cons_self p rest)
    simp [seqOutputs, hv, ih (fun q hq => h q (List.mem_cons_of_mem _ hq)), okValD]

/-- When every task succeeds, collecting the parallel outcomes also returns
the per-prompt run values in input order. -/
theorem collectOutcomes_all_ok (n : Nat) (f : Prompt → Except Err PyVal) :
    ∀ prompts : List Prompt,
      (∀ p ∈ prompts, ∃ v, f p = .ok v) →
      collectOutcomes n (run_tasks_in_parallel f prompts) =
        prompts.map fun p => okValD (f p) := by
  intro prompts
  induction prompts with
  | nil => intro _; rfl
  | cons p rest ih =>
    intro h
    obtain ⟨v, hv⟩ := h p (List.mem_cons_self p rest)
    have ih2 := ih (fun q hq => h q (List.mem_cons_of_mem _ hq))
    simp only [run_tasks_in_parallel, List.map_cons] at ih2 ⊢
    simp [collectOutcomes, hv, okValD, ih2]

/-- When every task succeeds, both branches of the output-collection phase
agree on the per-prompt run values. -/
theorem batchOutputs_all_ok (args : Args) (cache : Option Cache) (worker : Worker)
    (prompts : List Prompt)
    (h : ∀ p ∈ prompts, ∃ v, run_single p cache args worker = .ok v) :
    batchOutputs args cache worker prompts =
      .ok (prompts.map fun p => okValD (run_single p cache args worker)) := by
  unfold batchOutputs
  by_cases hmp : args.multiprocess > 1
  · simp [hmp, collectOutcomes_all_ok args.n _ prompts h]
  · simp [hmp, seqOutputs_all_ok cache args worker prompts h]

/-- C10: with caching enabled, `run_batch`'s write loop stores an entry for
every prompt unconditionally, not only for misses: after a run in which every
prompt is structured (with fingerprints colliding only for equal prompts) and
every task succeeds, the final cache maps each prompt's serialization to
exactly the output returned for that prompt, overwriting any pre-existing
entry under that key (including an identical one written back after a cache
hit). -/
theorem run_batch_writes_every_prompt
    (args : Args) (c0 : Cache) (worker : Worker) (prompts : List Prompt)
    (houts : List PyVal) (oc : Option Cache)
    (hcache : args.use_cache = true)
    (hconv : ∀ p ∈ prompts, ∃ msgs, p = Prompt.conv msgs)
    (hinj : ∀ p q, p ∈ prompts → q ∈ prompts → promptKeyD p = promptKeyD q → p = q)
    (hsucc : ∀ p ∈ prompts, ∃ v, run_single p (some c0) args worker = .ok v)
    (hok : run_batch args (some c0) worker prompts = .ok (houts, oc)) :
    houts.length = prompts.length ∧
    ∃ c', oc = some c' ∧
      ∀ (i : Nat) (msgs : List Message), prompts[i]? = some (.conv msgs) →
        ∃ v, houts[i]? = some v ∧ dictFind c' (jsonDumps msgs) = some v := by
  have hbo := batchOutputs_all_ok args (some c0) worker prompts hsucc
  have hconv2 : ∀ pr ∈ prompts.map fun a =>
      (a, okValD (run_single a (some c0) args worker)), ∃ msgs, pr.1 = Prompt.conv msgs := by
    intro pr hpr
    obtain ⟨a, ha, rfl⟩ := List.mem_map.mp hpr
    exact hconv a ha
  have hwl := cacheWriteLoop_conv
    (prompts.map fun a => (a, okValD (run_single a (some c0) args worker))) none c0 hconv2
  have hrb : run_batch args (some c0) worker prompts =
      .ok (prompts.map fun p => okValD (run_single p (some c0) args worker),
        some (writeFold
          (prompts.map fun a => (a, okValD (run_single a (some c0) args worker))) c0)) := by
    simp only [run_batch, hbo, batchEpilogue, hcache, if_true,
      zip_map_self (fun p => okValD (run_single p (some c0) args worker)) prompts, hwl]
  rw [hrb] at hok
  have h1 : houts = prompts.map fun p => okValD (run_single p (some c0) args worker) := by
    cases hok
    rfl
  have h2 : oc = some (writeFold
      (prompts.map fun a => (a, okValD (run_single a (some c0) args worker))) c0) := by
    cases hok
    rfl
  subst h1
  subst h2
  refine ⟨by simp, _, rfl, ?_⟩
  intro i msgs hi
  have hmem : Prompt.conv msgs ∈ prompts := by
    have := List.getElem?_eq_some_iff.mp hi
    obtain ⟨hlt, hget⟩ := this
    exact hget ▸ List.getElem_mem hlt
  refine ⟨okValD (run_single (.conv msgs) (some c0) args worker), ?_, ?_⟩
  · simp [List.getElem?_map, hi]
  · apply writeFold_find
    · refine ⟨(.conv msgs, okValD (run_single (.conv msgs) (some c0) args worker)),
        List.mem_map.mpr ⟨.conv msgs, hmem, rfl⟩, ?_⟩
      simp [promptKeyD, promptKey]
    · intro pr hpr hkey
      obtain ⟨a, ha, rfl⟩ := List.mem_map.mp hpr
      have hak : a = Prompt.conv msgs := by
        apply hinj a (.conv msgs) ha hmem
        simpa [promptKeyD, promptKey] using hkey
      rw [hak]

/-- Initial cache for the C10 witness: a stale entry of the wrong length for
`promptA`, to be overwritten. -/
def c0W : Cache := [(fpA, .pyList ["stale"])]

/-- C10 witness: a two-task successful batch over an initial cache holding a
stale (wrong-length) entry for the first task's fingerprint; both fingerprints
end up mapped to the freshly returned outputs. -/
theorem run_batch_writes_every_prompt_w :
    ([PyVal.pyList ["x1", "x2"], PyVal.pyList ["x1", "x2"]] : List PyVal).length =
      [promptA, promptB].length ∧
    ∃ c', (some cacheAB : Option Cache) = some c' ∧
      ∀ (i : Nat) (msgs : List Message), [promptA, promptB][i]? = some (.conv msgs) →
        ∃ v, ([PyVal.pyList ["x1", "x2"], PyVal.pyList ["x1", "x2"]] : List PyVal)[i]? = some v ∧
          dictFind c' (jsonDumps msgs) = some v :=
  run_batch_writes_every_prompt argsSeqCache c0W goodWorker [promptA, promptB]
    [.pyList ["x1", "x2"], .pyList ["x1", "x2"]] (some cacheAB) rfl
    (by
      intro p hp
      simp [List.mem_cons] at hp
      rcases hp with rfl | rfl
      · exact ⟨[[("role", "user"), ("content", "A")]], rfl⟩
      · exact ⟨[[("role", "user"), ("content", "B")]], rfl⟩)
    (by
      intro p q hp hq hk
      simp [List.mem_cons] at hp hq
      rcases hp with rfl | rfl <;> rcases hq with rfl | rfl <;>
        first
        | rfl
        | exact absurd hk (by decide))
    (by
      intro p hp
      simp [List.mem_cons] at hp
      rcases hp with rfl | rfl
      · exact ⟨.pyList ["x1", "x2"], rfl⟩
      · exact ⟨.pyList ["x1", "x2"], rfl⟩)
    rfl

/-- The parallel branch of the output-collection phase, as one equation. -/
theorem batchOutputs_par (args : Args) (cache : Option Cache) (worker : Worker)
    (ps : List Prompt) (hmp : 1 < args.multiprocess) :
    batchOutputs args cache worker ps =
      .ok (collectOutcomes args.n
        (run_tasks_in_parallel (fun q => run_single q cache args worker) ps)) := by
  simp [batchOutputs, hmp]

/-- Collecting outcomes distributes over concatenation. -/
theorem collectOutcomes_append (n : Nat) :
    ∀ l1 l2 : List Outcome,
      collectOutcomes n (l1 ++ l2) = collectOutcomes n l1 ++ collectOutcomes n l2 := by
  intro l1 l2
  induction l1 with
  | nil => rfl
  | cons o rest ih =>
    cases o with
    | success r => simp [collectOutcomes, ih]
    | failure e => simp [collectOutcomes, ih]

/-- With `n ≥ 1` every outcome contributes at least one output element. -/
theorem collectOutcomes_length_ge (n : Nat) (hn : 1 ≤ n) :
    ∀ l : List Outcome, l.length ≤ (collectOutcomes n l).length := by
  intro l
  induction l with
  | nil => simp [collectOutcomes]
  | cons o rest ih =>
    cases o with
    | success r =>
      simp only [collectOutcomes, List.length_cons]
      omega
    | failure e =>
      simp only [collectOutcomes, List.length_append, List.length_replicate,
        List.length_cons]
      omega

/-- An element of the first list is paired with something in a zip with a
list at least as long. -/
theorem mem_zip_left_of_le {α β : Type} (a : α) :
    ∀ (l1 : List α) (l2 : List β), a ∈ l1 → l1.length ≤ l2.length →
      ∃ b, (a, b) ∈ l1.zip l2 := by
  intro l1
  induction l1 with
  | nil => intro l2 ha _; simp at ha
  | cons x rest ih =>
    intro l2 ha hlen
    cases l2 with
    | nil => simp at hlen
    | cons y l2' =>
      rcases List.mem_cons.mp ha with rfl | ha'
      · exact ⟨y, List.mem_cons_self _ _⟩
      · obtain ⟨b, hb⟩ := ih l2' ha' (by simp at hlen ⊢; omega)
        exact ⟨b, List.mem_cons_of_mem _ hb⟩

/-- A key with an entry keeps some entry across the write fold (possibly
overwritten). -/
theorem writeFold_isSome_preserved (k : String) :
    ∀ (pairs : List (Prompt × PyVal)) (c : Cache),
      (∃ v, dictFind c k = some v) →
      ∃ v, dictFind (writeFold pairs c) k = some v := by
  intro pairs
  induction pairs with
  | nil => intro c h; simpa [writeFold] using h
  | cons pr rest ih =>
    intro c h
    have hstep : ∃ v, dictFind (dictInsert c (promptKeyD pr.1) pr.2) k = some v := by
      rw [dictFind_dictInsert]
      by_cases hk : promptKeyD pr.1 = k
      · exact ⟨pr.2, by simp [hk]⟩
      · obtain ⟨v, hv⟩ := h
        exact ⟨v, by simp [hk, hv]⟩
    have hres := ih (dictInsert c (promptKeyD pr.1) pr.2) hstep
    simpa [writeFold] using hres

/-- Every key written at least once during the fold ends with an entry. -/
theorem writeFold_isSome_of_mem (k : String) :
    ∀ (pairs : List (Prompt × PyVal)) (c : Cache),
      (∃ pr ∈ pairs, promptKeyD pr.1 = k) →
      ∃ v, dictFind (writeFold pairs c) k = some v := by
  intro pairs
  induction pairs with
  | nil => intro c h; simp at h
  | cons pr rest ih =>
    intro c h
    by_cases hk : promptKeyD pr.1 = k
    · have hstep : ∃ v, dictFind (dictInsert c (promptKeyD pr.1) pr.2) k = some v :=
        ⟨pr.2, by rw [dictFind_dictInsert]; simp [hk]⟩
      have hres := writeFold_isSome_preserved k rest (dictInsert c (promptKeyD pr.1) pr.2) hstep
      simpa [writeFold] using hres
    · obtain ⟨q, hq, hqk⟩ := h
      rcases List.mem_cons.mp hq with rfl | hq2
      · exact absurd hqk hk
      · have hres := ih (dictInsert c (promptKeyD pr.1) pr.2) ⟨q, hq2, hqk⟩
        simpa [writeFold] using hres

/-- C3 amended: if the worker invocation for a task T of the batch fails
during a parallel cached `run_batch` over structured prompts (n ≥ 1), the
batch completes and the cache afterwards DOES contain an entry under T's
fingerprint: the unconditional zip-write loop writes an entry for every
prompt's fingerprint, T's included, storing whatever output the
extend-misaligned zip pairs with T's position. -/
theorem run_batch_failed_task_fingerprint_still_cached
    (args : Args) (c0 : Cache) (worker : Worker) (prompts : List Prompt)
    (msgs : List Message) (er : Err)
    (hn : 1 ≤ args.n) (hmp : 1 < args.multiprocess) (hc : args.use_cache = true)
    (hconv : ∀ p ∈ prompts, ∃ ms, p = Prompt.conv ms)
    (hmem : Prompt.conv msgs ∈ prompts)
    (_hfail : run_single (.conv msgs) (some c0) args worker = .error er) :
    ∃ outs c', run_batch args (some c0) worker prompts = .ok (outs, some c') ∧
      ∃ v, dictFind c' (jsonDumps msgs) = some v := by
  have hbo := batchOutputs_par args (some c0) worker prompts hmp
  have hlen : prompts.length ≤ (collectOutcomes args.n
      (run_tasks_in_parallel (fun q => run_single q (some c0) args worker) prompts)).length := by
    have h1 : (run_tasks_in_parallel
        (fun q => run_single q (some c0) args worker) prompts).length = prompts.length := by
      simp [run_tasks_in_parallel]
    have h2 := collectOutcomes_length_ge args.n hn
      (run_tasks_in_parallel (fun q => run_single q (some c0) args worker) prompts)
    rw [h1] at h2
    exact h2
  have hzipconv : ∀ pr ∈ prompts.zip (collectOutcomes args.n
      (run_tasks_in_parallel (fun q => run_single q (some c0) args worker) prompts)),
      ∃ ms, pr.1 = Prompt.conv ms := by
    intro pr hpr
    obtain ⟨p1, b⟩ := pr
    exact hconv p1 (List.of_mem_zip hpr).1
  have hwl := cacheWriteLoop_conv (prompts.zip (collectOutcomes args.n
    (run_tasks_in_parallel (fun q => run_single q (some c0) args worker) prompts))) none c0
    hzipconv
  refine ⟨collectOutcomes args.n
      (run_tasks_in_parallel (fun q => run_single q (some c0) args worker) prompts),
    writeFold (prompts.zip (collectOutcomes args.n
      (run_tasks_in_parallel (fun q => run_single q (some c0) args worker) prompts))) c0,
    ?_, ?_⟩
  · simp [run_batch, hbo, batchEpilogue, hc, hwl]
  · obtain ⟨b, hb⟩ := mem_zip_left_of_le (Prompt.conv msgs) prompts _ hmem hlen
    exact writeFold_isSome_of_mem (jsonDumps msgs) _ c0
      ⟨(Prompt.conv msgs, b), hb, by simp [promptKeyD, promptKey]⟩

/-- C3 amended witness: a two-task parallel cached batch whose first task's
worker invocation fails; the batch completes and the cache still holds an
entry under the failed task's fingerprint. -/
theorem run_batch_failed_task_fingerprint_still_cached_w :
    run_single promptA (some []) argsParCache mixedWorker = .error (.workerError "boom") ∧
    ∃ outs c', run_batch argsParCache (some []) mixedWorker [promptA, promptB] =
        .ok (outs, some c') ∧
      ∃ v, dictFind c' fpA = some v :=
  ⟨rfl,
   run_batch_failed_task_fingerprint_still_cached argsParCache [] mixedWorker
     [promptA, promptB] [[("role", "user"), ("content", "A")]] (.workerError "boom")
     (by decide) (by decide) rfl
     (by
       intro p hp
       simp [List.mem_cons] at hp
       rcases hp with rfl | rfl
       · exact ⟨[[("role", "user"), ("content", "A")]], rfl⟩
       · exact ⟨[[("role", "user"), ("content", "B")]], rfl⟩)
     (List.mem_cons_self _ _)
     rfl⟩

/-- C7 amended: with parallelism above 1, a worker exception for one task at
any position of the batch is captured by the pool: the output collection
completes, every sibling task's output is exactly what the batch without the
failing task produces, the failing task contributes `args.n` separate empty
strings at its position, and `run_batch` itself completes with that output
list — with caching either off, or on over structured prompts (a text prompt
with caching makes the write loop raise `NameError` regardless of any worker
failure). -/
theorem parallel_failure_isolated_any_position
    (args : Args) (cache : Option Cache) (worker : Worker)
    (pre post : List Prompt) (p : Prompt) (er : Err)
    (hmp : 1 < args.multiprocess)
    (hfail : run_single p cache args worker = .error er)
    (hwrite : args.use_cache = false ∨
      ((∃ c0, cache = some c0) ∧ ∀ q ∈ pre ++ p :: post, ∃ ms, q = Prompt.conv ms)) :
    ∃ outsPre outsPost oc,
      batchOutputs args cache worker pre = .ok outsPre ∧
      batchOutputs args cache worker post = .ok outsPost ∧
      batchOutputs args cache worker (pre ++ post) = .ok (outsPre ++ outsPost) ∧
      batchOutputs args cache worker (pre ++ p :: post) =
        .ok (outsPre ++ (List.replicate args.n (.pyStr "") ++ outsPost)) ∧
      run_batch args cache worker (pre ++ p :: post) =
        .ok (outsPre ++ (List.replicate args.n (.pyStr "") ++ outsPost), oc) := by
  have hpre := batchOutputs_par args cache worker pre hmp
  have hpost := batchOutputs_par args cache worker post hmp
  have happ : ∀ l1 l2 : List Prompt,
      run_tasks_in_parallel (fun q => run_single q cache args worker) (l1 ++ l2) =
        run_tasks_in_parallel (fun q => run_single q cache args worker) l1 ++
        run_tasks_in_parallel (fun q => run_single q cache args worker) l2 := by
    intro l1 l2
    simp [run_tasks_in_parallel]
  have hboth : batchOutputs args cache worker (pre ++ post) =
      .ok (collectOutcomes args.n
          (run_tasks_in_parallel (fun q => run_single q cache args worker) pre) ++
        collectOutcomes args.n
          (run_tasks_in_parallel (fun q => run_single q cache args worker) post)) := by
    rw [batchOutputs_par args cache worker _ hmp, happ, collectOutcomes_append]
  have hmidlist : run_tasks_in_parallel (fun q => run_single q cache args worker)
      (pre ++ p :: post) =
      run_tasks_in_parallel (fun q => run_single q cache args worker) pre ++
        (Outcome.failure er ::
          run_tasks_in_parallel (fun q => run_single q cache args worker) post) := by
    simp [run_tasks_in_parallel, hfail]
  have hmid : batchOutputs args cache worker (pre ++ p :: post) =
      .ok (collectOutcomes args.n
          (run_tasks_in_parallel (fun q => run_single q cache args worker) pre) ++
        (List.replicate args.n (.pyStr "") ++
          collectOutcomes args.n
            (run_tasks_in_parallel (fun q => run_single q cache args worker) post))) := by
    rw [batchOutputs_par args cache worker _ hmp, hmidlist, collectOutcomes_append]
    simp [collectOutcomes]
  rcases hwrite with hcf | ⟨⟨c0, rfl⟩, hallconv⟩
  · exact ⟨_, _, cache, hpre, hpost, hboth, hmid,
      by simp [run_batch, hmid, batchEpilogue, hcf]⟩
  · by_cases hcu : args.use_cache
    · have hzipconv : ∀ pr ∈ (pre ++ p :: post).zip
          (collectOutcomes args.n
            (run_tasks_in_parallel (fun q => run_single q (some c0) args worker) pre) ++
          (List.replicate args.n (.pyStr "") ++
            collectOutcomes args.n
              (run_tasks_in_parallel (fun q => run_single q (some c0) args worker) post))),
          ∃ ms, pr.1 = Prompt.conv ms := by
        intro pr hpr
        obtain ⟨q, b⟩ := pr
        exact hallconv q (List.of_mem_zip hpr).1
      have hwl := cacheWriteLoop_conv ((pre ++ p :: post).zip
        (collectOutcomes args.n
          (run_tasks_in_parallel (fun q => run_single q (some c0) args worker) pre) ++
        (List.replicate args.n (.pyStr "") ++
          collectOutcomes args.n
            (run_tasks_in_parallel (fun q => run_single q (some c0) args worker) post))))
        none c0 hzipconv
      exact ⟨_, _, some (writeFold ((pre ++ p :: post).zip
          (collectOutcomes args.n
            (run_tasks_in_parallel (fun q => run_single q (some c0) args worker) pre) ++
          (List.replicate args.n (.pyStr "") ++
            collectOutcomes args.n
              (run_tasks_in_parallel (fun q => run_single q (some c0) args worker) post))))
          c0),
        hpre, hpost, hboth, hmid,
        by simp [run_batch, hmid, batchEpilogue, hcu, hwl]⟩
    · exact ⟨_, _, some c0, hpre, hpost, hboth, hmid,
        by simp [run_batch, hmid, batchEpilogue, hcu]⟩

/-- C7 amended witness: a cached three-task parallel batch failing in the
middle; the siblings' outputs are those of the two-task batch without the
failing task, and `run_batch` completes. -/
theorem parallel_failure_isolated_any_position_w :
    run_single promptA (some []) argsParCache mixedWorker = .error (.workerError "boom") ∧
    ∃ outsPre outsPost oc,
      batchOutputs argsParCache (some []) mixedWorker [promptB] = .ok outsPre ∧
      batchOutputs argsParCache (some []) mixedWorker [promptB] = .ok outsPost ∧
      batchOutputs argsParCache (some []) mixedWorker ([promptB] ++ [promptB]) =
        .ok (outsPre ++ outsPost) ∧
      batchOutputs argsParCache (some []) mixedWorker ([promptB] ++ promptA :: [promptB]) =
        .ok (outsPre ++ (List.replicate argsParCache.n (.pyStr "") ++ outsPost)) ∧
      run_batch argsParCache (some []) mixedWorker ([promptB] ++ promptA :: [promptB]) =
        .ok (outsPre ++ (List.replicate argsParCache.n (.pyStr "") ++ outsPost), oc) :=
  ⟨rfl,
   parallel_failure_isolated_any_position argsParCache (some []) mixedWorker
     [promptB] [promptB] promptA (.workerError "boom") (by decide) rfl
     (Or.inr ⟨⟨[], rfl⟩, by
       intro q hq
       simp [List.mem_cons] at hq
       rcases hq with rfl | rfl | rfl
       · exact ⟨[[("role", "user"), ("content", "B")]], rfl⟩
       · exact ⟨[[("role", "user"), ("content", "A")]], rfl⟩
       · exact ⟨[[("role", "user"), ("content", "B")]], rfl⟩⟩)⟩
